import Mathlib

/-!
Shallow embedding of the GeoIP update scripts (`files/geoip_update.py` and
`files/geoip2_update.py`) and proofs about their download-and-refresh
workflow: cache staleness, per-entry fetch outcomes, verdict aggregation,
archive extraction with path sanitization, ownership application, and the
dry-run mode.

Strings from the Python side are modelled as `List Char`; timestamps as `ℚ`
(seconds); fallible code as `Except`; filesystem and network effects as an
explicit state record threaded through the orchestrator.
-/

namespace Geoip

/-- Equality on `Except` results is decidable when it is on both sides. -/
instance {ε α : Type} [DecidableEq ε] [DecidableEq α] : DecidableEq (Except ε α) := by
  intro x y
  cases x <;> cases y
  case error.error a b =>
    exact if h : a = b then .isTrue (by rw [h]) else .isFalse (by intro hc; cases hc; exact h rfl)
  case ok.ok a b =>
    exact if h : a = b then .isTrue (by rw [h]) else .isFalse (by intro hc; cases hc; exact h rfl)
  case error.ok a b => exact .isFalse (by intro hc; cases hc)
  case ok.error a b => exact .isFalse (by intro hc; cases hc)

/-! ### Python string primitives used by the scripts -/

/-- Characters treated as whitespace by Python `str.strip` / `str.split`. -/
def pyIsSpace (c : Char) : Bool :=
  c = ' ' || c = '\t' || c = '\n' || c = '\r' || c = '\x0b' || c = '\x0c'

/-- Embeds Python `str.strip()`: drop whitespace from both ends. -/
def pyStrip (l : List Char) : List Char :=
  ((l.dropWhile pyIsSpace).reverse.dropWhile pyIsSpace).reverse

/-- Embeds Python `str.endswith(suffix)`. -/
def pyEndsWith (l suffix : List Char) : Bool :=
  suffix.isSuffixOf l

/-- Embeds `os.path.basename` on POSIX: the part after the last `'/'`. -/
def pyBasename (l : List Char) : List Char :=
  (l.reverse.takeWhile (fun c => c != '/')).reverse

/-- Embeds Python `str.isdigit()` (ASCII): nonempty and all digits. -/
def pyIsDigit (l : List Char) : Bool :=
  !l.isEmpty && l.all (fun c => c.isDigit)

/-- Embeds `int(value)` on a digit string. -/
def digitsToNat (l : List Char) : Nat :=
  l.foldl (fun acc c => acc * 10 + (c.toNat - 48)) 0

/-- Embeds Python `str.split()` (no separator): split on whitespace runs,
dropping empty pieces. -/
def pySplitWs (l : List Char) : List (List Char) :=
  (l.splitOnP pyIsSpace).filter (fun w => !w.isEmpty)

/-- Embeds `line.split(None, 1)` on an already-stripped line (the only call
site strips first): the key is the maximal leading run of non-whitespace,
the value is the remainder with its leading whitespace run removed. -/
def splitFirstWs (l : List Char) : List Char × List Char :=
  (l.takeWhile (fun c => !pyIsSpace c),
   (l.dropWhile (fun c => !pyIsSpace c)).dropWhile pyIsSpace)

/-- Embeds `str.startswith("#")`. -/
def pyStartsHash (l : List Char) : Bool :=
  match l with
  | [] => false
  | c :: _ => c = '#'

/-! ### Verdict aggregation (shared tail of `download_data` and
`download_legacy_data`, duplicated verbatim in the source) -/

/-- Descending insertion used to model Python `sorted(..., reverse=True)`.
Only the head of the result is ever consulted, so the choice of sorting
algorithm is immaterial. -/
def insertDesc (x : Nat) : List Nat → List Nat
  | [] => [x]
  | y :: ys => if y ≤ x then x :: y :: ys else y :: insertDesc x ys

/-- Descending sort, modelling `sorted(..., reverse=True)`. -/
def sortDesc : List Nat → List Nat
  | [] => []
  | x :: xs => insertDesc x (sortDesc xs)

def successMessage : String := "The downloads were successful."

def failureMessage : String := "At least one download was faulty."

/-- Embeds the common verdict code of `download_data` / `download_legacy_data`:
`_sorted = sorted(list(set(list(result.values()))), reverse=True)`,
`return_code = _sorted[0]`, then message selection.  The source indexes a
list it knows is nonempty; `headD 0` stands in for `[0]` and is only used
on nonempty status lists. -/
def downloadVerdict (statuses : List Nat) : Nat × String :=
  let sortedCodes := sortDesc statuses.dedup
  let returnCode := sortedCodes.headD 0
  if returnCode = 200 then (returnCode, successMessage)
  else (returnCode, failureMessage)

/-! ### Configuration parsing (`parse_geoip_conf`) -/

/-- Partially-filled configuration dictionary built up while parsing. -/
structure GeoipConf where
  accountID : Option Nat
  licenseKey : Option (List Char)
  editionIDs : Option (List (List Char))
deriving DecidableEq

/-- A fully validated configuration (all three required keys present). -/
structure GeoipConfOk where
  accountID : Nat
  licenseKey : List Char
  editionIDs : List (List Char)
deriving DecidableEq

/-- Failure modes of `parse_geoip_conf`: a raised `GeoIPConfigError`, or the
`sys.exit(1)` taken when required keys are missing. -/
inductive ParseFailure where
  | configFault (msg : String)
  | exitCode (code : Nat)
deriving DecidableEq

/-- State threaded through the line loop of `parse_geoip_conf`. -/
structure ParseState where
  config : GeoipConf
  malformed : List (List Char)
deriving DecidableEq

def emptyParseState : ParseState :=
  ⟨⟨none, none, none⟩, []⟩

def accountIDKey : List Char := ['A','c','c','o','u','n','t','I','D']

def licenseKeyKey : List Char := ['L','i','c','e','n','s','e','K','e','y']

def editionIDsKey : List Char := ['E','d','i','t','i','o','n','I','D','s']

/-- Embeds one iteration of the line loop in `parse_geoip_conf`:
a line without a space character (`if " " not in line`) is recorded as
malformed and skipped; otherwise the line is split on its first whitespace
run (`line.split(None, 1)`), unknown keys are ignored, and the three known
keys are validated and stored. -/
def processLine (st : ParseState) (line : List Char) : Except ParseFailure ParseState :=
  if ' ' ∈ line then
    let kv := splitFirstWs line
    let key := kv.1
    let value := kv.2
    if key = accountIDKey then
      if pyIsDigit value then
        .ok { st with config := { st.config with accountID := some (digitsToNat value) } }
      else .error (.configFault "Invalid AccountID: must be numeric")
    else if key = licenseKeyKey then
      if value.isEmpty then .error (.configFault "LicenseKey is empty")
      else .ok { st with config := { st.config with licenseKey := some value } }
    else if key = editionIDsKey then
      let editions := pySplitWs (pyStrip value)
      if editions.isEmpty then .error (.configFault "EditionIDs list is empty")
      else .ok { st with config := { st.config with editionIDs := some editions } }
    else .ok st
  else
    .ok { st with malformed := st.malformed ++ [line] }

/-- Folds `processLine` over the preprocessed lines. -/
def processLines : ParseState → List (List Char) → Except ParseFailure ParseState
  | st, [] => .ok st
  | st, l :: ls =>
    match processLine st l with
    | .error e => .error e
    | .ok st2 => processLines st2 ls

/-- Embeds `parse_geoip_conf` on the raw lines of the configuration file:
strip each line, drop blank lines and `#` comments, run the line loop, then
`sys.exit(1)` if any of the three required keys is missing. -/
def parse_geoip_conf (rawLines : List (List Char)) : Except ParseFailure GeoipConfOk :=
  let lines := (rawLines.map pyStrip).filter
    (fun s => !s.isEmpty && !pyStartsHash s)
  match processLines emptyParseState lines with
  | .error e => .error e
  | .ok st =>
    match st.config.accountID, st.config.licenseKey, st.config.editionIDs with
    | some a, some k, some e => .ok ⟨a, k, e⟩
    | _, _, _ => .error (.exitCode 1)

/-! ### Fetching (`download_geoip_db`) -/

/-- Failure modes of `download_geoip_db`: the `GeoIPConfigError` raised for a
missing license key before any request, the exception raised by
`response.raise_for_status()` on a 4xx/5xx status, and the explicit
`raise Exception(...)` on any other non-200 status. -/
inductive FetchFailure where
  | missingLicenseKey
  | httpStatusFailure (status : Nat)
  | non200Failure (status : Nat)
deriving DecidableEq

def tarGzSuffix : List Char := ['.','t','a','r','.','g','z']

def mmdbSuffix : List Char := ['.','m','m','d','b']

/-- Embeds `download_geoip_db(edition_id, dest_dir)` given the HTTP status
the server would answer with.  Mirrors the source order: license-key
precondition first (raised before any request), then `raise_for_status()`
(4xx/5xx), then the explicit non-200 raise, then the tarball write. -/
def download_geoip_db (licenseKey : Option (List Char)) (editionId : List Char)
    (status : Nat) (destDir : List Char) : Except FetchFailure (Nat × List Char) :=
  if (licenseKey.getD []).isEmpty then .error .missingLicenseKey
  else if 400 ≤ status ∧ status ≤ 599 then .error (.httpStatusFailure status)
  else if status ≠ 200 then .error (.non200Failure status)
  else .ok (status, destDir ++ '/' :: (editionId ++ tarGzSuffix))

/-! ### Archive extraction (`extract_mmdb`) -/

/-- A tar archive member: its stored name and whether it is a regular file
(`member.isfile()`); directories and symlinks have `isFile = false`. -/
structure TarMember where
  name : List Char
  isFile : Bool
deriving DecidableEq

/-- Embeds the member loop of `extract_mmdb`: select exactly the regular
files whose name ends in `.mmdb`, rewrite each selected name to its base
name, and extract it directly under `dest_dir`; returns the list of
destination paths written, in order. -/
def extract_mmdb (members : List TarMember) (destDir : List Char) : List (List Char) :=
  match members with
  | [] => []
  | m :: rest =>
    if m.isFile && pyEndsWith m.name mmdbSuffix then
      (destDir ++ '/' :: pyBasename m.name) :: extract_mmdb rest destDir
    else
      extract_mmdb rest destDir

/-! ### Ownership (`_resolve_uid_gid`, `_chown_path`) -/

/-- What a single `_chown_path` call did. -/
inductive ChownOutcome where
  | skippedEmpty
  | skippedDryRun
  | applied (uid gid : Int)
deriving DecidableEq

/-- `true` exactly when the outcome mutated the filesystem. -/
def chownMutates : ChownOutcome → Bool
  | .applied _ _ => true
  | _ => false

/-- Embeds `_resolve_uid_gid`: numeric strings are used directly, names go
through the `pwd`/`grp` lookups (modelled as partial maps; `none` covers
both a missing module and a failed lookup, each of which raises). -/
def resolve_uid_gid (hasOsChown : Bool) (pwdLookup grpLookup : List Char → Option Int)
    (owner group : List Char) : Except String (Int × Int) :=
  if hasOsChown = false then .error "os.chown is not available on this platform."
  else
    match
      (if owner.isEmpty then some (-1 : Int)
       else if pyIsDigit owner then some (digitsToNat owner : Int)
       else pwdLookup owner),
      (if group.isEmpty then some (-1 : Int)
       else if pyIsDigit group then some (digitsToNat group : Int)
       else grpLookup group) with
    | some uid, some gid => .ok (uid, gid)
    | none, _ => .error "User name resolution failed."
    | _, none => .error "Group name resolution failed."

/-- Embeds `_chown_path`: return immediately when both owner and group are
empty; under dry-run only log; otherwise resolve and chown. -/
def chown_path (dryRun : Bool) (hasOsChown : Bool)
    (pwdLookup grpLookup : List Char → Option Int)
    (owner group : List Char) : Except String ChownOutcome :=
  if owner.isEmpty && group.isEmpty then .ok .skippedEmpty
  else if dryRun then .ok .skippedDryRun
  else
    match resolve_uid_gid hasOsChown pwdLookup grpLookup owner group with
    | .error e => .error e
    | .ok (uid, gid) => .ok (.applied uid gid)

/-! ### Cache gate (`cache_valid`) -/

/-- Embeds `cache_valid(cache_file_remove)`.  The marker is `none` when the
file does not exist, `some t` when it exists with creation timestamp `t`
(seconds).  Returns the `out_of_cache` flag and the marker state after the
optional removal.  Mirrors the source order: the dry-run short circuit
comes first, then the `os.path.isfile` test, then the age comparison
`cached_time > cache_minutes` with `cached_time = diff.total_seconds()/60`. -/
def cache_valid (dryRun : Bool) (marker : Option ℚ) (now cacheMinutes : ℚ)
    (cacheFileRemove : Bool) : Bool × Option ℚ :=
  if dryRun then (true, marker)
  else
    match marker with
    | some creationTime =>
      let cachedTime := (now - creationTime) / 60
      let outOfCache := decide (cacheMinutes < cachedTime)
      if outOfCache && cacheFileRemove then (outOfCache, none)
      else (outOfCache, marker)
    | none => (true, marker)

/-! ### The orchestrator (`run`) as explicit state passing -/

/-- Observable machine state: the cache directory, the cache marker (with a
write counter so that re-creating the marker is distinguishable from
leaving it alone), and the accumulated file writes, chowns and HTTP
requests, each in program order. -/
structure St where
  cacheDirExists : Bool
  marker : Option ℚ
  markerWrites : Nat
  writtenFiles : List (List Char)
  chowns : List (List Char)
  requests : List (List Char)
deriving DecidableEq

/-- The external world: HTTP status per dataset key, tar members per
edition tarball, gzip validity per legacy dataset, and uid/gid lookups. -/
structure Env where
  httpStatus : List Char → Nat
  tarMembers : List Char → List TarMember
  gzipValid : List Char → Bool
  pwdLookup : List Char → Option Int
  grpLookup : List Char → Option Int
  hasOsChown : Bool

/-- Run parameters: CLI flags plus the raw lines of the configuration file
(`none` when the file does not exist). -/
structure Params where
  dryRun : Bool
  legacy : Bool
  owner : List Char
  group : List Char
  outputDir : List Char
  cacheDir : List Char
  now : ℚ
  cacheMinutes : ℚ
  configFile : Option (List (List Char))

/-- Everything `run` can raise: a missing or unparsable configuration file,
a fetch exception, a gzip decompression failure in legacy mode, or a chown
failure. -/
inductive RunFailure where
  | configFileNotFound
  | parseFailure (e : ParseFailure)
  | fetchFailure (e : FetchFailure)
  | gzipFailure
  | chownFailure (msg : String)
deriving DecidableEq

def maxmindUrlPrefix : List Char :=
  ("https://download.maxmind.com/app/geoip_download?edition_id=").data

/-- The templated MaxMind download URL. -/
def maxmindUrl (editionId licenseKey : List Char) : List Char :=
  maxmindUrlPrefix ++ editionId ++ ("&license_key=").data ++ licenseKey
    ++ ("&suffix=tar.gz").data

def legacyUrlBase : List Char := ("https://dl.miyuru.lk/geoip").data

/-- The fixed legacy download URL for one dataset. -/
def legacyUrl (downloadFile : List Char) : List Char :=
  legacyUrlBase ++ '/' :: downloadFile

/-- The built-in edition table `self.geoip_editions`; iterating the Python
dict yields its keys. -/
def defaultEditions : List (List Char) :=
  [('C'::"ity".data), ('C'::"ountry".data), ('A'::"SN".data)]

/-- The legacy dataset table `dbs`: (key, output_file, download_file). -/
def legacyDbs : List (List Char × List Char × List Char) :=
  [(("GeoIP2-City").data, ("GeoIP-City.dat").data, ("dbip/city/dbip.dat.gz").data),
   (("GeoIP2-Country").data, ("GeoIP-Country.dat").data, ("dbip/country/dbip.dat.gz").data)]

/-- The edition list actually iterated by `download_data`:
`config.get("EditionIDs") or self.geoip_editions`. -/
def editionsOf (conf : GeoipConfOk) : List (List Char) :=
  if conf.editionIDs.isEmpty then defaultEditions else conf.editionIDs

/-- Embeds the chown loop at the end of `extract_mmdb`, one `_chown_path`
call per extracted path; a failure propagates, leaving the chowns already
performed in place. -/
def chownLoop (env : Env) (p : Params) : List (List Char) → St → St × Except RunFailure Unit
  | [], st => (st, .ok ())
  | pth :: rest, st =>
    match chown_path p.dryRun env.hasOsChown env.pwdLookup env.grpLookup p.owner p.group with
    | .error e => (st, .error (.chownFailure e))
    | .ok (.applied _ _) => chownLoop env p rest { st with chowns := st.chowns ++ [pth] }
    | .ok _ => chownLoop env p rest st

/-- Embeds `if extracted and (self.owner or self.group): ...` guarding the
chown loop. -/
def applyOwnership (env : Env) (p : Params) (extracted : List (List Char)) (st : St) :
    St × Except RunFailure Unit :=
  if extracted.isEmpty || (p.owner.isEmpty && p.group.isEmpty) then (st, .ok ())
  else chownLoop env p extracted st

/-- Embeds the per-edition loop of `download_data`: dry-run synthesizes a
200 outcome without any effect; otherwise `download_geoip_db` checks the
license key, performs the request, raises on any non-200 status, writes
the tarball, and `extract_mmdb` then writes the `.mmdb` members and applies
ownership.  Statuses are collected in order. -/
def download_data_loop (env : Env) (p : Params) (licenseKey : Option (List Char)) :
    List (List Char) → St → St × Except RunFailure (List Nat)
  | [], st => (st, .ok [])
  | edition :: rest, st =>
    if p.dryRun then
      match download_data_loop env p licenseKey rest st with
      | (st2, .error e) => (st2, .error e)
      | (st2, .ok sts) => (st2, .ok (200 :: sts))
    else
      if (licenseKey.getD []).isEmpty then
        (st, .error (.fetchFailure .missingLicenseKey))
      else
        let st1 := { st with requests :=
          st.requests ++ [maxmindUrl edition (licenseKey.getD [])] }
        let s := env.httpStatus edition
        if 400 ≤ s ∧ s ≤ 599 then (st1, .error (.fetchFailure (.httpStatusFailure s)))
        else if s ≠ 200 then (st1, .error (.fetchFailure (.non200Failure s)))
        else
          let tarball := p.cacheDir ++ '/' :: (edition ++ tarGzSuffix)
          let st2 := { st1 with writtenFiles := st1.writtenFiles ++ [tarball] }
          let extracted := extract_mmdb (env.tarMembers edition) p.outputDir
          let st3 := { st2 with writtenFiles := st2.writtenFiles ++ extracted }
          match applyOwnership env p extracted st3 with
          | (st4, .error e) => (st4, .error e)
          | (st4, .ok _) =>
            match download_data_loop env p licenseKey rest st4 with
            | (st5, .error e) => (st5, .error e)
            | (st5, .ok sts) => (st5, .ok (s :: sts))

/-- Embeds `download_data(config)`: run the edition loop, then aggregate the
collected statuses into the verdict. -/
def download_data (env : Env) (p : Params) (conf : GeoipConfOk) (st : St) :
    St × Except RunFailure (Nat × String) :=
  match download_data_loop env p (some conf.licenseKey) (editionsOf conf) st with
  | (st2, .error e) => (st2, .error e)
  | (st2, .ok sts) => (st2, .ok (downloadVerdict sts))

/-- Embeds the per-dataset loop of `download_legacy_data`: dry-run
synthesizes 200; otherwise the request is made, the status recorded, and on
200 the output file is opened (truncating it) and the decompressed payload
written — a gzip failure raises after the truncation.  Non-200 statuses are
only logged; the loop continues. -/
def download_legacy_loop (env : Env) (p : Params) :
    List (List Char × List Char × List Char) → St → St × Except RunFailure (List Nat)
  | [], st => (st, .ok [])
  | entry :: rest, st =>
    if p.dryRun then
      match download_legacy_loop env p rest st with
      | (st2, .error e) => (st2, .error e)
      | (st2, .ok sts) => (st2, .ok (200 :: sts))
    else
      let st1 := { st with requests := st.requests ++ [legacyUrl entry.2.2] }
      let s := env.httpStatus entry.1
      if s = 200 then
        let safeAs := p.outputDir ++ '/' :: entry.2.1
        let st2 := { st1 with writtenFiles := st1.writtenFiles ++ [safeAs] }
        if env.gzipValid entry.1 then
          match download_legacy_loop env p rest st2 with
          | (st3, .error e) => (st3, .error e)
          | (st3, .ok sts) => (st3, .ok (s :: sts))
        else (st2, .error .gzipFailure)
      else
        match download_legacy_loop env p rest st1 with
        | (st3, .error e) => (st3, .error e)
        | (st3, .ok sts) => (st3, .ok (s :: sts))

/-- Embeds `download_legacy_data()`: run the dataset loop over the fixed
table, then aggregate statuses into the verdict. -/
def download_legacy_data (env : Env) (p : Params) (st : St) :
    St × Except RunFailure (Nat × String) :=
  match download_legacy_loop env p legacyDbs st with
  | (st2, .error e) => (st2, .error e)
  | (st2, .ok sts) => (st2, .ok (downloadVerdict sts))

/-- Embeds `update_cache_information`: `open(self.cache_file_name, "w")`
creates or truncates the marker, stamping it with the current time. -/
def update_cache_information (now : ℚ) (st : St) : St :=
  { st with marker := some now, markerWrites := st.markerWrites + 1 }

/-- Embeds the mode selection inside `run()` when the cache is out of date:
legacy mode runs `download_legacy_data`; otherwise `parse_geoip_conf` is
read (raising `FileNotFoundError` when the file is missing) and
`download_data` runs on its result. -/
def refreshStep (env : Env) (p : Params) (st : St) :
    St × Except RunFailure (Nat × String) :=
  if p.legacy then download_legacy_data env p st
  else
    match p.configFile with
    | none => (st, Except.error RunFailure.configFileNotFound)
    | some lines =>
      match parse_geoip_conf lines with
      | .error e => (st, .error (.parseFailure e))
      | .ok conf => download_data env p conf st

/-- Embeds `run()`: ensure the cache directory, check the cache gate with
`cache_file_remove=False`, refresh in the selected mode when out of cache,
and commit the marker only when the verdict status is 200 and dry-run is
off.  The result is the final state plus either the raised failure or the
verdict (`none` when the cache was still fresh). -/
def runModel (env : Env) (p : Params) (st0 : St) :
    St × Except RunFailure (Option (Nat × String)) :=
  let st1 := { st0 with cacheDirExists := true }
  let outOfCache := (cache_valid p.dryRun st1.marker p.now p.cacheMinutes false).1
  if outOfCache then
    match refreshStep env p st1 with
    | (st2, .error e) => (st2, .error e)
    | (st2, .ok (code, msg)) =>
      if code = 200 ∧ p.dryRun = false then
        (update_cache_information p.now st2, .ok (some (code, msg)))
      else (st2, .ok (some (code, msg)))
  else (st1, .ok none)

/-- The logical dataset keys one run's entries are fetched under: the legacy
table's keys, or the modern edition list determined by the parsed
configuration. -/
def entryKeys (p : Params) : List (List Char) :=
  if p.legacy then legacyDbs.map (fun t => t.1)
  else
    match p.configFile with
    | none => []
    | some lines =>
      match parse_geoip_conf lines with
      | .error _ => []
      | .ok conf => editionsOf conf

/-! ### Legacy write with file contents (`download_legacy_data`, write step) -/

/-- A fetched legacy payload: either it gzip-decompresses to some bytes, or
`gzip.decompress` raises. -/
inductive GzipPayload where
  | valid (content : List Nat)
  | corrupt
deriving DecidableEq

/-- Embeds the legacy write
`with open(safe_as, "wb") as f: f.write(gzip.decompress(r.content))`
at the level of the output file's contents: `open(..., "wb")` truncates the
destination to zero bytes first, and only then is `gzip.decompress`
evaluated.  Returns the final file contents and whether an exception was
raised. -/
def legacy_write (priorFile : Option (List Nat)) (status : Nat) (payload : GzipPayload) :
    Option (List Nat) × Bool :=
  if status = 200 then
    let truncated : Option (List Nat) := some []
    match payload with
    | .valid content => (some content, false)
    | .corrupt => (truncated, true)
  else (priorFile, false)

/-! ### Frame predicate and concrete fixtures -/

/-- The state fields the download loops never touch: the cache-directory
flag, the marker, and the marker write counter. -/
def frameEq (a b : St) : Prop :=
  b.cacheDirExists = a.cacheDirExists ∧ b.marker = a.marker ∧ b.markerWrites = a.markerWrites

/-- A world in which every request answers 200 with an empty archive. -/
def envAll200 : Env :=
  ⟨fun _ => 200, fun _ => [], fun _ => true, fun _ => none, fun _ => none, true⟩

/-- A world in which every request answers 404. -/
def envAll404 : Env :=
  ⟨fun _ => 404, fun _ => [], fun _ => true, fun _ => none, fun _ => none, true⟩

/-- A uid/gid lookup that never resolves. -/
def noLookup : List Char → Option Int := fun _ => none

/-- Initial state: no cache directory, no marker, nothing written. -/
def stNoCacheDir : St := ⟨false, none, 0, [], [], []⟩

/-- Dry-run legacy-mode invocation with the script defaults. -/
def paramsDryLegacy : Params :=
  ⟨true, true, [], [], ("/usr/share/GeoIP").data, ("/var/cache/geoip").data, 0, 10080, none⟩

/-- Real legacy-mode invocation with the script defaults. -/
def paramsLegacy : Params :=
  ⟨false, true, [], [], ("/usr/share/GeoIP").data, ("/var/cache/geoip").data, 0, 10080, none⟩

/-- A hostile archive member name trying to escape the destination. -/
def trickyMemberName : List Char := ("../../etc/passwd.mmdb").data

/-- A crafted archive: a traversal attempt plus an unrelated text file. -/
def craftedMembers : List TarMember :=
  [⟨trickyMemberName, true⟩, ⟨("COPYRIGHT.txt").data, true⟩]

def sampleDestDir : List Char := ("/usr/share/GeoIP").data

/-- A config line whose key and value are separated by a tab, not a space. -/
def tabAccountLine : List Char := ("AccountID\t123").data

/-- A config file in which all three required keys are tab-separated. -/
def tabConfLines : List (List Char) :=
  [("AccountID\t123").data, ("LicenseKey\tabc").data, ("EditionIDs\tGeoLite2-City").data]

/-! ## Lemmas about verdict aggregation -/

theorem insertDesc_headD (x : Nat) (l : List Nat) :
    (insertDesc x l).headD 0 = Nat.max x (l.headD 0) := by
  cases l with
  | nil => simp [insertDesc]
  | cons y ys =>
    by_cases h : y ≤ x
    · simp [insertDesc, h, Nat.max_eq_left h]
    · simp [insertDesc, h, Nat.max_eq_right (Nat.le_of_not_le h)]

theorem sortDesc_headD (l : List Nat) : (sortDesc l).headD 0 = l.foldr Nat.max 0 := by
  induction l with
  | nil => rfl
  | cons x xs ih =>
    show (insertDesc x (sortDesc xs)).headD 0 = (x :: xs).foldr Nat.max 0
    rw [insertDesc_headD, ih, List.foldr_cons]

theorem foldr_max_mem (l : List Nat) (h : l ≠ []) : l.foldr Nat.max 0 ∈ l := by
  induction l with
  | nil => exact absurd rfl h
  | cons x xs ih =>
    by_cases hx : xs.foldr Nat.max 0 ≤ x
    · simp [Nat.max_eq_left hx]
    · have hxs : xs ≠ [] := by
        intro he
        exact hx (by simp [he])
      simp only [List.foldr_cons, Nat.max_eq_right (Nat.le_of_not_le hx)]
      exact List.mem_cons_of_mem x (ih hxs)

theorem le_foldr_max (l : List Nat) : ∀ x ∈ l, x ≤ l.foldr Nat.max 0 := by
  induction l with
  | nil => simp
  | cons y ys ih =>
    intro x hx
    rcases List.mem_cons.mp hx with rfl | hmem
    · exact Nat.le_max_left _ _
    · exact Nat.le_trans (ih x hmem) (Nat.le_max_right _ _)

theorem foldr_max_dedup (l : List Nat) : l.dedup.foldr Nat.max 0 = l.foldr Nat.max 0 := by
  by_cases h : l = []
  · subst h; rfl
  · have hd : l.dedup ≠ [] := by simpa [List.dedup_eq_nil] using h
    apply Nat.le_antisymm
    · exact le_foldr_max l _ (List.mem_dedup.mp (foldr_max_mem _ hd))
    · exact le_foldr_max l.dedup _ (List.mem_dedup.mpr (foldr_max_mem l h))

theorem downloadVerdict_fst (statuses : List Nat) :
    (downloadVerdict statuses).1 = statuses.foldr Nat.max 0 := by
  show (if (sortDesc statuses.dedup).headD 0 = 200
      then ((sortDesc statuses.dedup).headD 0, successMessage)
      else ((sortDesc statuses.dedup).headD 0, failureMessage)).1
    = statuses.foldr Nat.max 0
  rw [sortDesc_headD, foldr_max_dedup]
  split <;> rfl

theorem downloadVerdict_snd (statuses : List Nat) :
    (downloadVerdict statuses).2
      = if statuses.foldr Nat.max 0 = 200 then successMessage else failureMessage := by
  show (if (sortDesc statuses.dedup).headD 0 = 200
      then ((sortDesc statuses.dedup).headD 0, successMessage)
      else ((sortDesc statuses.dedup).headD 0, failureMessage)).2
    = if statuses.foldr Nat.max 0 = 200 then successMessage else failureMessage
  rw [sortDesc_headD, foldr_max_dedup]
  by_cases h : statuses.foldr Nat.max 0 = 200 <;> simp [h]

/-! ## C2: verdict aggregation is the maximum status -/

/-- C2: for every non-empty list of per-entry statuses, the verdict's
aggregate status is the maximum status observed (it is an observed status
and bounds every observed status), and the verdict message is the success
message iff that aggregate is 200; moreover `download_data` (modern mode)
and `download_legacy_data` (legacy mode) both compute their verdict as
exactly this aggregation of their collected statuses. -/
theorem verdict_aggregates_max (statuses : List Nat) (h : statuses ≠ []) :
    ((downloadVerdict statuses).1 ∈ statuses
      ∧ ∀ s ∈ statuses, s ≤ (downloadVerdict statuses).1)
  ∧ ((downloadVerdict statuses).2 = successMessage ↔ (downloadVerdict statuses).1 = 200)
  ∧ (∀ env p conf st st2 sts,
      download_data_loop env p (some conf.licenseKey) (editionsOf conf) st = (st2, .ok sts) →
      download_data env p conf st = (st2, .ok (downloadVerdict sts)))
  ∧ (∀ env p st st2 sts,
      download_legacy_loop env p legacyDbs st = (st2, .ok sts) →
      download_legacy_data env p st = (st2, .ok (downloadVerdict sts))) := by
  refine ⟨⟨?_, ?_⟩, ?_, ?_, ?_⟩
  · rw [downloadVerdict_fst]
    exact foldr_max_mem _ h
  · intro s hs
    rw [downloadVerdict_fst]
    exact le_foldr_max _ s hs
  · rw [downloadVerdict_snd, downloadVerdict_fst]
    constructor
    · intro hmsg
      by_contra h200
      rw [if_neg h200] at hmsg
      exact absurd hmsg (by decide)
    · intro h200
      rw [if_pos h200]
  · intro env p conf st st2 sts hloop
    unfold download_data
    rw [hloop]
  · intro env p st st2 sts hloop
    unfold download_legacy_data
    rw [hloop]

/-- C2 witness: the aggregation applied to the concrete outcome set
`[200, 404]`. -/
theorem verdict_aggregates_max_witness :
    (downloadVerdict [200, 404]).1 ∈ ([200, 404] : List Nat)
    ∧ downloadVerdict [200, 404] = (404, failureMessage) :=
  ⟨(verdict_aggregates_max [200, 404] (by decide)).1.1, by decide⟩

/-! ## C3: the cache gate -/

/-- C3: `cache_valid` reports "out of cache" (stale) iff dry-run is active,
or the marker file does not exist, or the elapsed minutes since the
marker's timestamp exceed the freshness window; otherwise it reports
false. -/
theorem cache_valid_stale_iff (dryRun : Bool) (marker : Option ℚ)
    (now cacheMinutes : ℚ) (remove : Bool) :
    (cache_valid dryRun marker now cacheMinutes remove).1 = true ↔
      (dryRun = true ∨ marker = none
        ∨ ∃ t, marker = some t ∧ cacheMinutes < (now - t) / 60) := by
  cases dryRun with
  | true => simp [cache_valid]
  | false =>
    cases marker with
    | none => simp [cache_valid]
    | some t =>
      by_cases hc : cacheMinutes < (now - t) / 60
      · cases remove <;> simp [cache_valid, hc]
      · cases remove <;> simp [cache_valid, hc]

/-! ## Lemmas about base names and suffixes -/

theorem pyBasename_no_slash (l : List Char) : ∀ c ∈ pyBasename l, c ≠ '/' := by
  intro c hc
  have h1 : c ∈ l.reverse.takeWhile (fun c => c != '/') := by
    simpa [pyBasename] using hc
  have h2 := List.mem_takeWhile_imp h1
  simpa using h2

theorem pyBasename_endsWith_mmdb (l : List Char) (h : pyEndsWith l mmdbSuffix = true) :
    pyEndsWith (pyBasename l) mmdbSuffix = true := by
  have hs : mmdbSuffix <:+ l := by
    simpa [pyEndsWith, List.isSuffixOf_iff_suffix] using h
  obtain ⟨t, ht⟩ := hs
  have hrev : l.reverse = mmdbSuffix.reverse ++ t.reverse := by
    rw [← ht, List.reverse_append]
  have hall : ∀ x ∈ mmdbSuffix.reverse, (x != '/') = true := by decide
  have hbase : pyBasename l
      = (t.reverse.takeWhile (fun c => c != '/')).reverse ++ mmdbSuffix := by
    rw [pyBasename, hrev, List.takeWhile_append_of_pos hall, List.reverse_append,
      List.reverse_reverse]
  rw [pyEndsWith, List.isSuffixOf_iff_suffix, hbase]
  exact List.suffix_append _ _

theorem endsWith_mmdb_shape (b : List Char) (h : pyEndsWith b mmdbSuffix = true) :
    b ≠ [] ∧ b ≠ ['.'] ∧ b ≠ ['.', '.'] := by
  have hs : mmdbSuffix <:+ b := by
    simpa [pyEndsWith, List.isSuffixOf_iff_suffix] using h
  obtain ⟨t, ht⟩ := hs
  have hlen : 5 ≤ b.length := by
    rw [← ht]
    simp [mmdbSuffix]
  refine ⟨?_, ?_, ?_⟩ <;> intro he <;> rw [he] at hlen <;> simp at hlen

/-! ## C5: extraction paths are sanitized -/

/-- C5: every path written by `extract_mmdb` is the destination directory
followed by a single final component equal to the base name of some
selected member's name; that component contains no `'/'`, is nonempty and
is neither `"."` nor `".."`, so every write lands directly under the
destination directory even for crafted member names. -/
theorem extract_mmdb_paths_safe (members : List TarMember) (destDir : List Char) :
    ∀ pth ∈ extract_mmdb members destDir,
      ∃ b, pth = destDir ++ '/' :: b
        ∧ (∀ c ∈ b, c ≠ '/') ∧ b ≠ [] ∧ b ≠ ['.'] ∧ b ≠ ['.', '.']
        ∧ ∃ m, m ∈ members ∧ m.isFile = true ∧ pyEndsWith m.name mmdbSuffix = true
            ∧ b = pyBasename m.name := by
  induction members with
  | nil =>
    intro pth hp
    simp [extract_mmdb] at hp
  | cons m rest ih =>
    intro pth hp
    by_cases hm : m.isFile && pyEndsWith m.name mmdbSuffix
    · rw [extract_mmdb, if_pos hm] at hp
      have hmf : m.isFile = true := (Bool.and_eq_true_iff.mp hm).1
      have hme : pyEndsWith m.name mmdbSuffix = true := (Bool.and_eq_true_iff.mp hm).2
      rcases List.mem_cons.mp hp with rfl | htail
      · have hends := pyBasename_endsWith_mmdb m.name hme
        obtain ⟨hne, hdot, hdots⟩ := endsWith_mmdb_shape _ hends
        exact ⟨pyBasename m.name, rfl, pyBasename_no_slash _, hne, hdot, hdots,
          m, List.mem_cons_self m rest, hmf, hme, rfl⟩
      · obtain ⟨b, hb1, hb2, hb3, hb4, hb5, m2, hm2, hrest⟩ := ih pth htail
        exact ⟨b, hb1, hb2, hb3, hb4, hb5, m2, List.mem_cons_of_mem m hm2, hrest⟩
    · rw [extract_mmdb, if_neg hm] at hp
      obtain ⟨b, hb1, hb2, hb3, hb4, hb5, m2, hm2, hrest⟩ := ih pth hp
      exact ⟨b, hb1, hb2, hb3, hb4, hb5, m2, List.mem_cons_of_mem m hm2, hrest⟩

/-- C5 witness: the crafted archive containing
`"../../etc/passwd.mmdb"` extracts to a single file directly under the
destination directory. -/
theorem extract_mmdb_paths_safe_witness :
    (sampleDestDir ++ '/' :: pyBasename trickyMemberName)
        ∈ extract_mmdb craftedMembers sampleDestDir
    ∧ ∃ b, (sampleDestDir ++ '/' :: pyBasename trickyMemberName) = sampleDestDir ++ '/' :: b
        ∧ (∀ c ∈ b, c ≠ '/') ∧ b ≠ [] ∧ b ≠ ['.'] ∧ b ≠ ['.', '.']
        ∧ ∃ m, m ∈ craftedMembers ∧ m.isFile = true ∧ pyEndsWith m.name mmdbSuffix = true
            ∧ b = pyBasename m.name :=
  ⟨by decide,
   extract_mmdb_paths_safe craftedMembers sampleDestDir
     (sampleDestDir ++ '/' :: pyBasename trickyMemberName) (by decide)⟩

/-! ## C6: extraction selects exactly the regular `.mmdb` files -/

/-- C6: `extract_mmdb` writes exactly the members that are regular files
whose names end in `.mmdb` (in archive order, each to the base name under
the destination directory); in particular a directory entry is skipped even
if its name ends in `.mmdb`, and an archive with zero matching members
yields the empty write list — a no-op, not an error. -/
theorem extract_mmdb_selects_exactly (members : List TarMember) (destDir : List Char) :
    extract_mmdb members destDir
      = (members.filter (fun m => m.isFile && pyEndsWith m.name mmdbSuffix)).map
          (fun m => destDir ++ '/' :: pyBasename m.name)
  ∧ (extract_mmdb members destDir = [] ↔
      members.filter (fun m => m.isFile && pyEndsWith m.name mmdbSuffix) = []) := by
  have h1 : extract_mmdb members destDir
      = (members.filter (fun m => m.isFile && pyEndsWith m.name mmdbSuffix)).map
          (fun m => destDir ++ '/' :: pyBasename m.name) := by
    induction members with
    | nil => rfl
    | cons m rest ih =>
      by_cases hm : m.isFile && pyEndsWith m.name mmdbSuffix
      · rw [extract_mmdb, if_pos hm, List.filter_cons, if_pos hm, List.map_cons, ih]
      · rw [extract_mmdb, if_neg hm, List.filter_cons, if_neg hm, ih]
  exact ⟨h1, by rw [h1]; exact List.map_eq_nil_iff⟩

/-! ## C9: ownership application no-ops -/

/-- C9: `_chown_path` performs no filesystem mutation when both the owner
and the group are empty strings, and performs none (logging only) whenever
dry-run is active: in both situations it returns a non-mutating outcome
without attempting any uid/gid resolution. -/
theorem chown_path_noop (dryRun hasOsChown : Bool)
    (pwdLookup grpLookup : List Char → Option Int) (owner group : List Char)
    (h : (owner = [] ∧ group = []) ∨ dryRun = true) :
    ∃ r, chown_path dryRun hasOsChown pwdLookup grpLookup owner group = .ok r
      ∧ chownMutates r = false := by
  rcases h with ⟨ho, hg⟩ | hd
  · subst ho
    subst hg
    exact ⟨.skippedEmpty, rfl, rfl⟩
  · subst hd
    by_cases he : owner.isEmpty && group.isEmpty
    · exact ⟨.skippedEmpty, by simp [chown_path, he], rfl⟩
    · exact ⟨.skippedDryRun, by simp [chown_path, he], rfl⟩

/-- C9 witness: dry-run with a nonempty owner, and lookups that would fail
if they were consulted. -/
theorem chown_path_noop_witness :
    ∃ r, chown_path true true noLookup noLookup (('r') :: ("oot").data) [] = .ok r
      ∧ chownMutates r = false :=
  chown_path_noop true true noLookup noLookup (('r') :: ("oot").data) [] (Or.inr rfl)

/-! ## C10: tab-separated configuration lines are treated as malformed -/

/-- C10: a configuration line whose key and value are separated only by
whitespace other than a space character is classified as malformed by the
`" " not in line` test and ignored (the configuration is left untouched),
even though the `split(None, 1)` the parser uses would happily split it at
the tab; consequently a file whose three required keys are all
tab-separated parses to the missing-keys `sys.exit(1)` outcome. -/
theorem tab_lines_treated_malformed :
    (∀ st line, ¬ (' ' ∈ line) →
      processLine st line = .ok { st with malformed := st.malformed ++ [line] })
  ∧ splitFirstWs tabAccountLine = (accountIDKey, ['1', '2', '3'])
  ∧ parse_geoip_conf tabConfLines = .error (.exitCode 1) := by
  refine ⟨?_, by decide, by decide⟩
  intro st line h
  rw [processLine, if_neg h]

/-- C10 witness: the tab-separated `AccountID` line is recorded as
malformed and contributes nothing to the configuration. -/
theorem tab_lines_treated_malformed_witness :
    processLine emptyParseState tabAccountLine
      = .ok { emptyParseState with malformed := [tabAccountLine] } :=
  tab_lines_treated_malformed.1 emptyParseState tabAccountLine (by decide)

/-! ## C1: non-200 statuses raise in modern mode -/

/-- C1 counterexample: at HTTP status 404 (any non-200 would do),
`download_geoip_db` raises — `response.raise_for_status()` throws for
4xx/5xx and the remaining non-200 codes hit the explicit
`raise Exception(...)` — instead of returning a recorded failure outcome
as the claim states. -/
theorem fetch_non200_raises_counterexample :
    download_geoip_db (some ['k']) (("GeoLite2-City").data) 404 (("/var/cache/geoip").data)
      = .error (.httpStatusFailure 404) := by decide

/-- C1 amended: `download_geoip_db` treats status 200 as success, but every
other status makes it raise rather than return an outcome; inside
`download_data`'s loop the exception aborts the processing of all
remaining editions (exactly one request was issued); only the
missing-license-key precondition is raised before any request. -/
theorem fetch_raises_and_aborts :
    (∀ lk ed dd s, lk ≠ [] → s ≠ 200 →
      (download_geoip_db (some lk) ed s dd).isOk = false)
  ∧ (∀ lk ed dd, lk ≠ [] →
      download_geoip_db (some lk) ed 200 dd = .ok (200, dd ++ '/' :: (ed ++ tarGzSuffix)))
  ∧ (∀ env p st lk ed rest, p.dryRun = false → lk ≠ [] → env.httpStatus ed ≠ 200 →
      (download_data_loop env p (some lk) (ed :: rest) st).2.isOk = false
      ∧ (download_data_loop env p (some lk) (ed :: rest) st).1.requests
          = st.requests ++ [maxmindUrl ed lk])
  ∧ (∀ env p st ed rest, p.dryRun = false →
      download_data_loop env p none (ed :: rest) st
        = (st, .error (.fetchFailure .missingLicenseKey))) := by
  refine ⟨?_, ?_, ?_, ?_⟩
  · intro lk ed dd s hlk hs
    cases lk with
    | nil => exact absurd rfl hlk
    | cons a as =>
      by_cases h45 : 400 ≤ s ∧ s ≤ 599
      · simp [download_geoip_db, h45, Except.isOk, Except.toBool]
      · simp [download_geoip_db, h45, hs, Except.isOk, Except.toBool]
  · intro lk ed dd hlk
    cases lk with
    | nil => exact absurd rfl hlk
    | cons a as => simp [download_geoip_db]
  · intro env p st lk ed rest hdry hlk hs
    cases lk with
    | nil => exact absurd rfl hlk
    | cons a as =>
      by_cases h45 : 400 ≤ env.httpStatus ed ∧ env.httpStatus ed ≤ 599
      · constructor <;> simp [download_data_loop, hdry, h45, Except.isOk, Except.toBool]
      · constructor <;> simp [download_data_loop, hdry, h45, hs, Except.isOk, Except.toBool]
  · intro env p st ed rest hdry
    simp [download_data_loop, hdry]

/-- C1 witness for the amended claim: a 500 answer for the ASN edition
raises, and the loop over `["GeoLite2-ASN", "GeoLite2-City"]` aborts after
a single request. -/
theorem fetch_raises_and_aborts_witness :
    ((download_geoip_db (some ['k']) (("GeoLite2-ASN").data) 500 (("/var/cache/geoip").data)).isOk
        = false)
    ∧ (download_data_loop envAll404 paramsLegacy (some ['k'])
        [("GeoLite2-ASN").data, ("GeoLite2-City").data] stNoCacheDir).2.isOk = false :=
  ⟨fetch_raises_and_aborts.1 ['k'] (("GeoLite2-ASN").data) (("/var/cache/geoip").data) 500
      (by decide) (by decide),
   (fetch_raises_and_aborts.2.2.1 envAll404 paramsLegacy stNoCacheDir ['k']
      (("GeoLite2-ASN").data) [("GeoLite2-City").data] rfl (by decide) (by decide)).1⟩

/-! ## C8: a failed legacy write truncates a prior valid file -/

/-- C8 (code bug): in legacy mode the destination file is opened with mode
`"wb"` — truncating it — before `gzip.decompress` is evaluated, so a
corrupt payload on a 200 response leaves a zero-byte file where a prior
valid file existed, contradicting the requirement that failed writes never
leave a zero-byte file. -/
theorem legacy_write_truncates_prior_file :
    legacy_write (some [1, 2, 3]) 200 GzipPayload.corrupt = (some [], true) := by decide

/-! ## Frame lemmas: the download loops never touch the marker -/

theorem frameEq_refl (a : St) : frameEq a a := ⟨rfl, rfl, rfl⟩

theorem frameEq_trans {a b c : St} (h1 : frameEq a b) (h2 : frameEq b c) : frameEq a c :=
  ⟨h2.1.trans h1.1, h2.2.1.trans h1.2.1, h2.2.2.trans h1.2.2⟩

theorem chownLoop_frame (env : Env) (p : Params) :
    ∀ (paths : List (List Char)) (st : St), frameEq st (chownLoop env p paths st).1 := by
  intro paths
  induction paths with
  | nil => intro st; exact frameEq_refl st
  | cons pth rest ih =>
    intro st
    rw [chownLoop]
    cases hc : chown_path p.dryRun env.hasOsChown env.pwdLookup env.grpLookup p.owner p.group with
    | error e => exact frameEq_refl st
    | ok r =>
      cases r with
      | skippedEmpty => exact ih st
      | skippedDryRun => exact ih st
      | applied u g => exact ih { st with chowns := st.chowns ++ [pth] }

theorem applyOwnership_frame (env : Env) (p : Params) (extracted : List (List Char)) (st : St) :
    frameEq st (applyOwnership env p extracted st).1 := by
  unfold applyOwnership
  split
  · exact frameEq_refl st
  · exact chownLoop_frame env p extracted st

/-- Equation form of `applyOwnership_frame`, convenient after `split at`. -/
theorem applyOwnership_frame_eq (env : Env) (p : Params) (extracted : List (List Char))
    (st st2 : St) (r : Except RunFailure Unit)
    (h : applyOwnership env p extracted st = (st2, r)) : frameEq st st2 := by
  have h1 := applyOwnership_frame env p extracted st
  rw [h] at h1
  exact h1

theorem download_data_loop_frame (env : Env) (p : Params) (lk : Option (List Char)) :
    ∀ (eds : List (List Char)) (st st2 : St) (r : Except RunFailure (List Nat)),
      download_data_loop env p lk eds st = (st2, r) → frameEq st st2 := by
  intro eds
  induction eds with
  | nil =>
    intro st st2 r h
    injection h with h1 h2
    exact h1 ▸ frameEq_refl st
  | cons ed rest ih =>
    intro st st2 r h
    by_cases hdry : p.dryRun = true
    · simp only [download_data_loop, hdry, if_true] at h
      split at h
      · rename_i heq
        injection h with h1 h2
        exact h1 ▸ ih _ _ _ heq
      · rename_i heq
        injection h with h1 h2
        exact h1 ▸ ih _ _ _ heq
    · simp only [download_data_loop, hdry, Bool.false_eq_true, if_false] at h
      by_cases hlk : (lk.getD []).isEmpty
      · rw [if_pos hlk] at h
        injection h with h1 h2
        exact h1 ▸ frameEq_refl st
      · rw [if_neg hlk] at h
        by_cases h45 : 400 ≤ env.httpStatus ed ∧ env.httpStatus ed ≤ 599
        · rw [if_pos h45] at h
          injection h with h1 h2
          exact h1 ▸ frameEq_refl _
        · rw [if_neg h45] at h
          by_cases h200 : env.httpStatus ed ≠ 200
          · rw [if_pos h200] at h
            injection h with h1 h2
            exact h1 ▸ frameEq_refl _
          · rw [if_neg h200] at h
            split at h
            · rename_i heq
              injection h with h1 h2
              have hf := applyOwnership_frame_eq env p _ _ _ _ heq
              exact h1 ▸ (⟨hf.1, hf.2.1, hf.2.2⟩ : frameEq st _)
            · rename_i heq
              split at h
              · rename_i heq2
                injection h with h1 h2
                have hfa := applyOwnership_frame_eq env p _ _ _ _ heq
                have hfb := ih _ _ _ heq2
                exact h1 ▸ frameEq_trans (⟨hfa.1, hfa.2.1, hfa.2.2⟩ : frameEq st _) hfb
              · rename_i heq2
                injection h with h1 h2
                have hfa := applyOwnership_frame_eq env p _ _ _ _ heq
                have hfb := ih _ _ _ heq2
                exact h1 ▸ frameEq_trans (⟨hfa.1, hfa.2.1, hfa.2.2⟩ : frameEq st _) hfb

theorem download_legacy_loop_frame (env : Env) (p : Params) :
    ∀ (entries : List (List Char × List Char × List Char)) (st st2 : St)
      (r : Except RunFailure (List Nat)),
      download_legacy_loop env p entries st = (st2, r) → frameEq st st2 := by
  intro entries
  induction entries with
  | nil =>
    intro st st2 r h
    injection h with h1 h2
    exact h1 ▸ frameEq_refl st
  | cons entry rest ih =>
    intro st st2 r h
    by_cases hdry : p.dryRun = true
    · simp only [download_legacy_loop, hdry, if_true] at h
      split at h
      · rename_i heq
        injection h with h1 h2
        exact h1 ▸ ih _ _ _ heq
      · rename_i heq
        injection h with h1 h2
        exact h1 ▸ ih _ _ _ heq
    · simp only [download_legacy_loop, hdry, Bool.false_eq_true, if_false] at h
      by_cases hs : env.httpStatus entry.1 = 200
      · rw [if_pos hs] at h
        by_cases hgz : env.gzipValid entry.1
        · rw [if_pos hgz] at h
          split at h
          · rename_i heq
            injection h with h1 h2
            have hf := ih _ _ _ heq
            exact h1 ▸ (⟨hf.1, hf.2.1, hf.2.2⟩ : frameEq st _)
          · rename_i heq
            injection h with h1 h2
            have hf := ih _ _ _ heq
            exact h1 ▸ (⟨hf.1, hf.2.1, hf.2.2⟩ : frameEq st _)
        · rw [if_neg hgz] at h
          injection h with h1 h2
          exact h1 ▸ frameEq_refl _
      · rw [if_neg hs] at h
        split at h
        · rename_i heq
          injection h with h1 h2
          have hf := ih _ _ _ heq
          exact h1 ▸ (⟨hf.1, hf.2.1, hf.2.2⟩ : frameEq st _)
        · rename_i heq
          injection h with h1 h2
          have hf := ih _ _ _ heq
          exact h1 ▸ (⟨hf.1, hf.2.1, hf.2.2⟩ : frameEq st _)

theorem download_data_frame (env : Env) (p : Params) (conf : GeoipConfOk) (st : St) :
    frameEq st (download_data env p conf st).1 := by
  unfold download_data
  split
  · rename_i heq
    exact download_data_loop_frame env p (some conf.licenseKey) (editionsOf conf) _ _ _ heq
  · rename_i heq
    exact download_data_loop_frame env p (some conf.licenseKey) (editionsOf conf) _ _ _ heq

theorem download_legacy_data_frame (env : Env) (p : Params) (st : St) :
    frameEq st (download_legacy_data env p st).1 := by
  unfold download_legacy_data
  split
  · rename_i heq
    exact download_legacy_loop_frame env p legacyDbs _ _ _ heq
  · rename_i heq
    exact download_legacy_loop_frame env p legacyDbs _ _ _ heq

theorem refreshStep_frame (env : Env) (p : Params) (st : St) :
    frameEq st (refreshStep env p st).1 := by
  unfold refreshStep
  by_cases hl : p.legacy = true
  · rw [if_pos hl]
    exact download_legacy_data_frame env p st
  · rw [if_neg hl]
    split
    · exact frameEq_refl st
    · split
      · exact frameEq_refl st
      · exact download_data_frame env p _ st

/-! ## Dry-run behaviour of the loops -/

theorem download_data_loop_dry (env : Env) (p : Params) (lk : Option (List Char))
    (hdry : p.dryRun = true) :
    ∀ (eds : List (List Char)) (st : St),
      download_data_loop env p lk eds st = (st, .ok (eds.map (fun _ => 200))) := by
  intro eds
  induction eds with
  | nil => intro st; rfl
  | cons ed rest ih =>
    intro st
    rw [download_data_loop, if_pos hdry, ih st]
    rfl

theorem download_legacy_loop_dry (env : Env) (p : Params) (hdry : p.dryRun = true) :
    ∀ (entries : List (List Char × List Char × List Char)) (st : St),
      download_legacy_loop env p entries st = (st, .ok (entries.map (fun _ => 200))) := by
  intro entries
  induction entries with
  | nil => intro st; rfl
  | cons entry rest ih =>
    intro st
    rw [download_legacy_loop, if_pos hdry, ih st]
    rfl

theorem foldr_max_const200 {α : Type} (l : List α) (h : l ≠ []) :
    (l.map (fun _ => 200)).foldr Nat.max 0 = 200 := by
  induction l with
  | nil => exact absurd rfl h
  | cons x xs ih =>
    cases xs with
    | nil =>
      show Nat.max 200 0 = 200
      decide
    | cons y ys =>
      have h2 := ih (by simp)
      simp only [List.map_cons, List.foldr_cons] at h2 ⊢
      rw [h2]
      exact Nat.max_self 200

theorem downloadVerdict_const200 {α : Type} (l : List α) (h : l ≠ []) :
    downloadVerdict (l.map (fun _ => 200)) = (200, successMessage) := by
  have hf := downloadVerdict_fst (l.map (fun _ => 200))
  have hs := downloadVerdict_snd (l.map (fun _ => 200))
  rw [foldr_max_const200 l h] at hf hs
  rw [if_pos rfl] at hs
  exact Prod.ext_iff.mpr ⟨hf, hs⟩

theorem editionsOf_ne_nil (conf : GeoipConfOk) : editionsOf conf ≠ [] := by
  unfold editionsOf
  split
  · decide
  · next h => simpa [List.isEmpty_iff] using h

/-! ## Statuses collected by successful loops -/

theorem download_data_loop_ok_all200 (env : Env) (p : Params) (lk : Option (List Char))
    (hdry : p.dryRun = false) :
    ∀ (eds : List (List Char)) (st st2 : St) (sts : List Nat),
      download_data_loop env p lk eds st = (st2, .ok sts) →
      ∀ e ∈ eds, env.httpStatus e = 200 := by
  intro eds
  induction eds with
  | nil =>
    intro st st2 sts h e he
    simp at he
  | cons ed rest ih =>
    intro st st2 sts h e he
    simp only [download_data_loop, hdry, Bool.false_eq_true, if_false] at h
    by_cases hlk : (lk.getD []).isEmpty
    · rw [if_pos hlk] at h
      exact Except.noConfusion (congrArg Prod.snd h)
    · rw [if_neg hlk] at h
      by_cases h45 : 400 ≤ env.httpStatus ed ∧ env.httpStatus ed ≤ 599
      · rw [if_pos h45] at h
        exact Except.noConfusion (congrArg Prod.snd h)
      · rw [if_neg h45] at h
        by_cases h200 : env.httpStatus ed = 200
        · rw [if_neg (by simp [h200])] at h
          rcases List.mem_cons.mp he with rfl | hmem
          · exact h200
          · split at h
            · exact Except.noConfusion (congrArg Prod.snd h)
            · split at h
              · exact Except.noConfusion (congrArg Prod.snd h)
              · next heq2 => exact ih _ _ _ heq2 e hmem
        · rw [if_pos (by simpa using h200)] at h
          exact Except.noConfusion (congrArg Prod.snd h)

theorem download_legacy_loop_ok_statuses (env : Env) (p : Params) (hdry : p.dryRun = false) :
    ∀ (entries : List (List Char × List Char × List Char)) (st st2 : St) (sts : List Nat),
      download_legacy_loop env p entries st = (st2, .ok sts) →
      sts = entries.map (fun t => env.httpStatus t.1) := by
  intro entries
  induction entries with
  | nil =>
    intro st st2 sts h
    rw [download_legacy_loop] at h
    injection h with h1 h2
    injection h2 with h3
    exact h3.symm
  | cons entry rest ih =>
    intro st st2 sts h
    simp only [download_legacy_loop, hdry, Bool.false_eq_true, if_false] at h
    by_cases hs : env.httpStatus entry.1 = 200
    · rw [if_pos hs] at h
      by_cases hgz : env.gzipValid entry.1
      · rw [if_pos hgz] at h
        split at h
        · exact Except.noConfusion (congrArg Prod.snd h)
        · next heq2 =>
          injection h with h1 h2
          injection h2 with h3
          rw [← h3, ih _ _ _ heq2, List.map_cons]
      · rw [if_neg hgz] at h
        exact Except.noConfusion (congrArg Prod.snd h)
    · rw [if_neg hs] at h
      split at h
      · exact Except.noConfusion (congrArg Prod.snd h)
      · next heq2 =>
        injection h with h1 h2
        injection h2 with h3
        rw [← h3, ih _ _ _ heq2, List.map_cons]

/-! ## Characterizing `runModel` -/

theorem runModel_fresh (env : Env) (p : Params) (st0 : St)
    (hooc : (cache_valid p.dryRun st0.marker p.now p.cacheMinutes false).1 = false) :
    runModel env p st0 = ({ st0 with cacheDirExists := true }, .ok none) := by
  simp only [runModel]
  rw [if_neg (by simp [hooc])]

theorem runModel_stale_error (env : Env) (p : Params) (st0 st2 : St) (e : RunFailure)
    (hooc : (cache_valid p.dryRun st0.marker p.now p.cacheMinutes false).1 = true)
    (hstep : refreshStep env p { st0 with cacheDirExists := true } = (st2, .error e)) :
    runModel env p st0 = (st2, .error e) := by
  simp only [runModel, hstep]
  rw [if_pos hooc]

theorem runModel_stale_commit (env : Env) (p : Params) (st0 st2 : St) (code : Nat) (msg : String)
    (hooc : (cache_valid p.dryRun st0.marker p.now p.cacheMinutes false).1 = true)
    (hstep : refreshStep env p { st0 with cacheDirExists := true } = (st2, .ok (code, msg)))
    (hc : code = 200 ∧ p.dryRun = false) :
    runModel env p st0 = (update_cache_information p.now st2, .ok (some (code, msg))) := by
  simp only [runModel, hstep]
  rw [if_pos hooc, if_pos hc]

theorem runModel_stale_nocommit (env : Env) (p : Params) (st0 st2 : St) (code : Nat) (msg : String)
    (hooc : (cache_valid p.dryRun st0.marker p.now p.cacheMinutes false).1 = true)
    (hstep : refreshStep env p { st0 with cacheDirExists := true } = (st2, .ok (code, msg)))
    (hnc : ¬(code = 200 ∧ p.dryRun = false)) :
    runModel env p st0 = (st2, .ok (some (code, msg))) := by
  simp only [runModel, hstep]
  rw [if_pos hooc, if_neg hnc]

/-- A successful refresh verdict cannot report status 200 when some entry
of the run answered a status above 199 other than 200 (the realistic range
for a response surfaced by the HTTP client). -/
theorem refreshStep_ok_code (env : Env) (p : Params) (st st2 : St) (code : Nat) (msg : String)
    (hdry : p.dryRun = false)
    (hstep : refreshStep env p st = (st2, .ok (code, msg)))
    (k : List Char) (hk : k ∈ entryKeys p)
    (hge : 200 ≤ env.httpStatus k) (hne : env.httpStatus k ≠ 200) :
    code ≠ 200 := by
  unfold refreshStep at hstep
  by_cases hl : p.legacy = true
  · rw [if_pos hl] at hstep
    unfold download_legacy_data at hstep
    split at hstep
    · exact Except.noConfusion (congrArg Prod.snd hstep)
    · rename_i heq
      have hsts := download_legacy_loop_ok_statuses env p hdry legacyDbs _ _ _ heq
      injection hstep with h1 h2
      injection h2 with h3
      have hcode := congrArg Prod.fst h3
      rw [downloadVerdict_fst] at hcode
      rw [hsts] at hcode
      have hkeys : entryKeys p = legacyDbs.map (fun t => t.1) := by
        simp [entryKeys, hl]
      rw [hkeys] at hk
      obtain ⟨t, ht, htk⟩ := List.mem_map.mp hk
      have hmem : env.httpStatus k ∈ legacyDbs.map (fun t => env.httpStatus t.1) :=
        List.mem_map.mpr ⟨t, ht, by rw [htk]⟩
      have hle := le_foldr_max _ _ hmem
      rw [hcode] at hle
      omega
  · have hl2 : p.legacy = false := by simpa using hl
    rw [if_neg hl] at hstep
    split at hstep
    · exact Except.noConfusion (congrArg Prod.snd hstep)
    · rename_i lines hcf
      split at hstep
      · exact Except.noConfusion (congrArg Prod.snd hstep)
      · rename_i conf hpc
        unfold download_data at hstep
        split at hstep
        · exact Except.noConfusion (congrArg Prod.snd hstep)
        · rename_i heq
          have hkeys : entryKeys p = editionsOf conf := by
            simp [entryKeys, hl2, hcf, hpc]
          rw [hkeys] at hk
          have hall := download_data_loop_ok_all200 env p (some conf.licenseKey) hdry
            (editionsOf conf) _ _ _ heq k hk
          exact absurd hall hne

/-! ## C4: the marker is committed iff the verdict is 200 and dry-run is off -/

/-- C4: in every cycle the cache marker is written (created or refreshed)
exactly when the refresh produced the aggregate verdict 200 and dry-run is
off; on every other path — fresh cache, raised failure, non-200 verdict,
or dry-run — the marker and its write counter are left untouched.  In
particular, whenever some entry of the run answers a status other than 200
(in the 200-and-above range the HTTP client can surface), the marker is
untouched. -/
theorem run_commits_marker_iff (env : Env) (p : Params) (st0 : St) :
    ((runModel env p st0).1.markerWrites = st0.markerWrites + 1
        ∧ (runModel env p st0).1.marker = some p.now
      ∨ ((runModel env p st0).1.markerWrites = st0.markerWrites
        ∧ (runModel env p st0).1.marker = st0.marker))
  ∧ ((runModel env p st0).1.markerWrites = st0.markerWrites + 1 ↔
      (p.dryRun = false ∧ ∃ msg, (runModel env p st0).2 = .ok (some (200, msg))))
  ∧ ((∃ k ∈ entryKeys p, 200 ≤ env.httpStatus k ∧ env.httpStatus k ≠ 200) →
      ((runModel env p st0).1.markerWrites = st0.markerWrites
        ∧ (runModel env p st0).1.marker = st0.marker)) := by
  by_cases hooc : (cache_valid p.dryRun st0.marker p.now p.cacheMinutes false).1 = true
  · rcases hstep : refreshStep env p { st0 with cacheDirExists := true } with ⟨st2, r⟩
    have hframe := refreshStep_frame env p { st0 with cacheDirExists := true }
    rw [hstep] at hframe
    have hfm : st2.marker = st0.marker := hframe.2.1
    have hfw : st2.markerWrites = st0.markerWrites := hframe.2.2
    cases r with
    | error e =>
      have hrm := runModel_stale_error env p st0 st2 e hooc hstep
      rw [hrm]
      refine ⟨Or.inr ⟨hfw, hfm⟩, ⟨?_, ?_⟩, ?_⟩
      · intro hw
        have hw2 : st2.markerWrites = st0.markerWrites + 1 := hw
        omega
      · rintro ⟨_, msg, hm⟩
        exact Except.noConfusion hm
      · intro _
        exact ⟨hfw, hfm⟩
    | ok v =>
      rcases v with ⟨code, msg⟩
      by_cases hc : code = 200 ∧ p.dryRun = false
      · have hrm := runModel_stale_commit env p st0 st2 code msg hooc hstep hc
        rw [hrm]
        have hw : (update_cache_information p.now st2).markerWrites = st0.markerWrites + 1 := by
          show st2.markerWrites + 1 = st0.markerWrites + 1
          rw [hfw]
        refine ⟨Or.inl ⟨hw, rfl⟩, ⟨?_, ?_⟩, ?_⟩
        · intro _
          exact ⟨hc.2, msg, by rw [hc.1]⟩
        · intro _
          exact hw
        · rintro ⟨k, hk, hge, hne⟩
          exact absurd hc.1 (refreshStep_ok_code env p _ st2 code msg hc.2 hstep k hk hge hne)
      · have hrm := runModel_stale_nocommit env p st0 st2 code msg hooc hstep hc
        rw [hrm]
        refine ⟨Or.inr ⟨hfw, hfm⟩, ⟨?_, ?_⟩, ?_⟩
        · intro hw
          have hw2 : st2.markerWrites = st0.markerWrites + 1 := hw
          omega
        · rintro ⟨hdryf, msg2, hm⟩
          have hm2 : (Except.ok (some (code, msg)) : Except RunFailure (Option (Nat × String)))
              = .ok (some (200, msg2)) := hm
          simp only [Except.ok.injEq, Option.some.injEq, Prod.mk.injEq] at hm2
          exact absurd ⟨hm2.1, hdryf⟩ hc
        · intro _
          exact ⟨hfw, hfm⟩
  · have hooc2 : (cache_valid p.dryRun st0.marker p.now p.cacheMinutes false).1 = false := by
      simpa using hooc
    have hrm := runModel_fresh env p st0 hooc2
    rw [hrm]
    refine ⟨Or.inr ⟨rfl, rfl⟩, ⟨?_, ?_⟩, ?_⟩
    · intro hw
      have hw2 : st0.markerWrites = st0.markerWrites + 1 := hw
      omega
    · rintro ⟨_, msg, hm⟩
      have hm2 : (Except.ok none : Except RunFailure (Option (Nat × String)))
          = .ok (some (200, msg)) := hm
      simp at hm2
    · intro _
      exact ⟨rfl, rfl⟩

/-- C4 witness: legacy mode against a world answering 404 leaves the
marker untouched. -/
theorem run_commits_marker_iff_witness :
    (runModel envAll404 paramsLegacy stNoCacheDir).1.markerWrites = stNoCacheDir.markerWrites
    ∧ (runModel envAll404 paramsLegacy stNoCacheDir).1.marker = stNoCacheDir.marker :=
  (run_commits_marker_iff envAll404 paramsLegacy stNoCacheDir).2.2
    ⟨("GeoIP2-City").data, by decide, by decide, by decide⟩

/-! ## C7: what dry-run does and does not do -/

/-- C7 counterexample: with dry-run active, `run()` still calls
`create_directory` on the cache directory, so starting from a state without
the cache directory the final state differs from the initial one — a
mutating side effect, contradicting "no mutating side effect at all". -/
theorem dry_run_side_effect_counterexample :
    (runModel envAll200 paramsDryLegacy stNoCacheDir).1 ≠ stNoCacheDir
    ∧ (runModel envAll200 paramsDryLegacy stNoCacheDir).1.cacheDirExists = true
    ∧ stNoCacheDir.cacheDirExists = false := by
  refine ⟨by decide, by decide, by decide⟩

/-- C7 amended: whenever dry-run is active (and, in modern mode, the
configuration file exists and parses), a full run performs no mutating
side effect other than ensuring the cache directory exists — no request,
no file write, no chown, no marker write — and every entry's outcome is
synthesized as 200, so the verdict is the success verdict. -/
theorem dry_run_no_mutations (env : Env) (p : Params) (st0 : St)
    (hd : p.dryRun = true)
    (hmode : p.legacy = true
      ∨ ∃ lines conf, p.configFile = some lines ∧ parse_geoip_conf lines = .ok conf) :
    runModel env p st0
      = ({ st0 with cacheDirExists := true }, .ok (some (200, successMessage))) := by
  have hooc : (cache_valid p.dryRun st0.marker p.now p.cacheMinutes false).1 = true := by
    simp [cache_valid, hd]
  by_cases hl : p.legacy = true
  · have hloop := download_legacy_loop_dry env p hd legacyDbs { st0 with cacheDirExists := true }
    have hstep : refreshStep env p { st0 with cacheDirExists := true }
        = ({ st0 with cacheDirExists := true }, .ok (200, successMessage)) := by
      simp only [refreshStep, hl, if_true, download_legacy_data, hloop]
      rw [downloadVerdict_const200 legacyDbs (by decide)]
    exact runModel_stale_nocommit env p st0 _ 200 successMessage hooc hstep (by simp [hd])
  · have hl2 : p.legacy = false := by simpa using hl
    rcases hmode with hleg | ⟨lines, conf, hcf, hpc⟩
    · exact absurd hleg hl
    · have hloop := download_data_loop_dry env p (some conf.licenseKey) hd (editionsOf conf)
        { st0 with cacheDirExists := true }
      have hstep : refreshStep env p { st0 with cacheDirExists := true }
          = ({ st0 with cacheDirExists := true }, .ok (200, successMessage)) := by
        simp only [refreshStep, hl2, Bool.false_eq_true, if_false, hcf, hpc,
          download_data, hloop]
        rw [downloadVerdict_const200 (editionsOf conf) (editionsOf_ne_nil conf)]
      exact runModel_stale_nocommit env p st0 _ 200 successMessage hooc hstep (by simp [hd])

/-- C7 witness for the amended claim: a concrete dry legacy run changes
only the cache-directory flag and reports the success verdict. -/
theorem dry_run_no_mutations_witness :
    runModel envAll200 paramsDryLegacy stNoCacheDir
      = ({ stNoCacheDir with cacheDirExists := true }, .ok (some (200, successMessage))) :=
  dry_run_no_mutations envAll200 paramsDryLegacy stNoCacheDir rfl (Or.inl rfl)

end Geoip
